import Mathlib

/-!
Verification development for the TPAC scheduling helper (`tsh.ts`).

Modelling conventions:
* `Temporal.PlainDateTime` values are modelled as `Int` minutes counted from
  2025-11-10T00:00 (the Monday anchor).  Every date-time the program builds
  lives inside the single TPAC week, and `Temporal.PlainDateTime.compare`
  is exactly the chronological order, so this is an order-faithful shallow
  embedding.  `Temporal.Duration` addition and subtraction become `Int`
  addition and subtraction.
* JavaScript `Map`s are modelled as association lists built in insertion
  order; JavaScript `Set<string>` as a `List String` guarded by a
  membership test on insertion.
* Fallible code (the `Temporal.Duration.from` `RangeError` on a `NaN`
  field) is modelled with `Except String`.
-/

namespace Tsh

/-- The five recognised weekday tags (`Days` in the source). -/
inductive Day where
  | monday
  | tuesday
  | wednesday
  | thursday
  | friday
deriving DecidableEq, Repr

/-- `Kind` in the source. -/
inductive Kind where
  | group
  | breakout
  | invalid
  | cancelled
deriving DecidableEq, Repr

/-- `MatchStatus` (the `Match` constant object) in the source. -/
inductive MatchStatus where
  | EXACT
  | SUBSET
  | NOPE
deriving DecidableEq, Repr

/-- `ClashStatus` (the `Clash` constant object) in the source. -/
inductive ClashStatus where
  | NONE
  | DEFO
  | NEAR
deriving DecidableEq, Repr

/-- `Temporal.PlainDateTime.compare`: -1 / 0 / 1 chronologically. -/
def pdtCompare (a b : Int) : Int :=
  if a < b then -1 else if a = b then 0 else 1

theorem pdtCompare_nonneg {a b : Int} : pdtCompare a b ≥ 0 ↔ b ≤ a := by
  unfold pdtCompare
  split <;> rename_i h
  · constructor <;> intro h2 <;> omega
  · split <;> rename_i h2 <;> (constructor <;> intro h3 <;> omega)

theorem pdtCompare_nonpos {a b : Int} : pdtCompare a b ≤ 0 ↔ a ≤ b := by
  unfold pdtCompare
  split <;> rename_i h
  · constructor <;> intro h2 <;> omega
  · split <;> rename_i h2 <;> (constructor <;> intro h3 <;> omega)

theorem pdtCompare_pos {a b : Int} : pdtCompare a b > 0 ↔ b < a := by
  unfold pdtCompare
  split <;> rename_i h
  · constructor <;> intro h2 <;> omega
  · split <;> rename_i h2 <;> (constructor <;> intro h3 <;> omega)

theorem pdtCompare_neg {a b : Int} : pdtCompare a b < 0 ↔ a < b := by
  unfold pdtCompare
  split <;> rename_i h
  · constructor <;> intro h2 <;> omega
  · split <;> rename_i h2 <;> (constructor <;> intro h3 <;> omega)

theorem pdtCompare_eq_zero {a b : Int} : pdtCompare a b = 0 ↔ a = b := by
  unfold pdtCompare
  split <;> rename_i h
  · constructor <;> intro h2 <;> omega
  · split <;> rename_i h2 <;> (constructor <;> intro h3 <;> omega)

/-- The `Meeting` record of the source.  `end` and `match` are Lean
keywords, so those two fields keep their names via guillemets. -/
structure Meeting where
  tag : Nat
  kind : Kind
  calendarTitle : String
  title : String
  calendarDay : Day
  day : Day
  calendarStart : Int
  start : Int
  calendarEnd : Int
  «end» : Int
  «match» : MatchStatus
  calendarRoom : String
  names : List String
  calendarUrl : String
  issueUrl : String
  alternatives : List String
  notes : Option String
deriving DecidableEq, Repr

/-- The `Gap` record of the source. -/
structure Gap where
  start : Int
  «end» : Int
deriving DecidableEq, Repr

/-- `timeMatch` from the source: three-way comparison of the calendar
window against the declared ("our") window. -/
def timeMatch (calendarStart calendarEnd ourStart ourEnd : Int) :
    MatchStatus :=
  let start := pdtCompare calendarStart ourStart
  let «end» := pdtCompare calendarEnd ourEnd
  if start = 0 ∧ «end» = 0 then MatchStatus.EXACT
  else if start ≤ 0 ∧ «end» ≥ 0 then MatchStatus.SUBSET
  else MatchStatus.NOPE

/-- The in-place `sort` helper applied to the two-element array `[a, b]`
inside `clashes`: JavaScript `Array.prototype.sort` is stable, so the pair
is swapped exactly when `compare(b.start, a.start) < 0`. -/
def sortTwo (a b : Meeting) : Meeting × Meeting :=
  if b.start < a.start then (b, a) else (a, b)

/-- The fixed near-clash buffer: `Temporal.Duration.from({ minutes: 10 })`. -/
def clashGap : Int := 10

/-- `clashes` from the source: classify a pair of meetings after ordering
it by declared start. -/
def clashes (a b : Meeting) : ClashStatus :=
  let mo := sortTwo a b
  let m := mo.1
  let o := mo.2
  if pdtCompare m.start o.start ≥ 0 ∧ pdtCompare m.start o.«end» ≤ 0 then
    ClashStatus.DEFO
  else if pdtCompare m.«end» o.start > 0 ∧ pdtCompare m.«end» o.«end» ≤ 0 then
    ClashStatus.DEFO
  else if pdtCompare m.start (o.start - clashGap) ≥ 0 ∧
      pdtCompare m.start (o.«end» + clashGap) ≤ 0 then
    ClashStatus.NEAR
  else if pdtCompare m.«end» (o.start - clashGap) ≥ 0 ∧
      pdtCompare m.«end» (o.«end» + clashGap) ≤ 0 then
    ClashStatus.NEAR
  else
    ClashStatus.NONE

/-- Helper to build a fully populated `Meeting` value for concrete tests;
only the fields a given theorem reads are significant. -/
def mkMeeting (tag : Nat) (s e : Int) (url : String) : Meeting :=
  { tag := tag
    kind := Kind.group
    calendarTitle := "Calendar title"
    title := "Issue title"
    calendarDay := Day.monday
    day := Day.monday
    calendarStart := s
    start := s
    calendarEnd := e
    «end» := e
    «match» := MatchStatus.EXACT
    calendarRoom := "Room"
    names := []
    calendarUrl := url
    issueUrl := "https://github.com/org/repo/issues/1"
    alternatives := []
    notes := none }

/-- The hard-clash (DEFO) condition of `clashes`, written out over the
pair `(m, o)` already ordered by declared start: `m.start` within
`[o.start, o.end]` inclusive, or `m.end` strictly after `o.start` and no
later than `o.end`. -/
def defoCond (m o : Meeting) : Prop :=
  (o.start ≤ m.start ∧ m.start ≤ o.«end») ∨
  (o.start < m.«end» ∧ m.«end» ≤ o.«end»)

/-- The near-clash window condition actually used by `clashes`: either
endpoint of `m` falls (inclusively, on both sides) within `o`'s window
widened by `clashGap` on both sides. -/
def nearCondWide (m o : Meeting) : Prop :=
  (o.start - clashGap ≤ m.start ∧ m.start ≤ o.«end» + clashGap) ∨
  (o.start - clashGap ≤ m.«end» ∧ m.«end» ≤ o.«end» + clashGap)

/-- Transcription of claim C1's NEAR rule, which re-uses "the same two
checks" as DEFO against the widened window — so its end check keeps the
strict lower bound (`m.end` strictly after `o.start - buffer`).  This
definition follows the claim's words, to be compared with `clashes`. -/
def claimClashesC1 (a b : Meeting) : ClashStatus :=
  let mo := sortTwo a b
  let m := mo.1
  let o := mo.2
  if (o.start ≤ m.start ∧ m.start ≤ o.«end») ∨
      (o.start < m.«end» ∧ m.«end» ≤ o.«end») then
    ClashStatus.DEFO
  else if (o.start - clashGap ≤ m.start ∧ m.start ≤ o.«end» + clashGap) ∨
      (o.start - clashGap < m.«end» ∧ m.«end» ≤ o.«end» + clashGap) then
    ClashStatus.NEAR
  else
    ClashStatus.NONE

/-- Claim C1 (counterexample): at `a = [09:00, 09:50]`, `b = [10:00, 11:00]`
the code returns NEAR (its widened end check has an inclusive lower bound,
and `a.end = 09:50 = b.start - buffer`), while the claim's rule — the DEFO
checks, with the strict end check, replayed on the widened window —
yields NONE. -/
theorem claim_C1_counterexample :
    clashes (mkMeeting 1 540 590 "u1") (mkMeeting 2 600 660 "u2") =
      ClashStatus.NEAR ∧
    claimClashesC1 (mkMeeting 1 540 590 "u1") (mkMeeting 2 600 660 "u2") =
      ClashStatus.NONE := by
  constructor <;> rfl

/-- Claim C1 (amended): with the pair `(m, o)` ordered by declared start,
`clashes` returns DEFO iff `m.start` lies within `[o.start, o.end]`
inclusive or `m.end` is strictly after `o.start` and no later than
`o.end`; otherwise NEAR iff either endpoint of `m` lies within `o`'s
window widened by the 10-minute buffer on both sides, both bounds
inclusive (the claim's strict lower bound on the widened end check is
amended to a non-strict one); otherwise NONE. -/
theorem claim_C1_amended (a b : Meeting) :
    (clashes a b = ClashStatus.DEFO ↔
      defoCond (sortTwo a b).1 (sortTwo a b).2) ∧
    (clashes a b = ClashStatus.NEAR ↔
      ¬ defoCond (sortTwo a b).1 (sortTwo a b).2 ∧
      nearCondWide (sortTwo a b).1 (sortTwo a b).2) ∧
    (clashes a b = ClashStatus.NONE ↔
      ¬ defoCond (sortTwo a b).1 (sortTwo a b).2 ∧
      ¬ nearCondWide (sortTwo a b).1 (sortTwo a b).2) := by
  unfold clashes defoCond nearCondWide
  simp only [pdtCompare_nonneg, pdtCompare_nonpos, pdtCompare_pos]
  split <;> rename_i h1
  · simp only [reduceCtorEq]
    constructor
    · simp only [true_iff]
      left
      exact h1
    constructor
    · simp only [false_iff]
      intro hc
      exact hc.1 (Or.inl h1)
    · simp only [false_iff]
      intro hc
      exact hc.1 (Or.inl h1)
  split <;> rename_i h2
  · simp only [reduceCtorEq]
    constructor
    · simp only [true_iff]
      right
      exact h2
    constructor
    · simp only [false_iff]
      intro hc
      exact hc.1 (Or.inr h2)
    · simp only [false_iff]
      intro hc
      exact hc.1 (Or.inr h2)
  split <;> rename_i h3
  · simp only [reduceCtorEq]
    refine ⟨by simp [h1, h2], ?_, ?_⟩
    · simp only [true_iff]
      exact ⟨fun hd => hd.elim h1 h2, Or.inl h3⟩
    · simp only [false_iff]
      intro hc
      exact hc.2 (Or.inl h3)
  split <;> rename_i h4
  · simp only [reduceCtorEq]
    refine ⟨by simp [h1, h2], ?_, ?_⟩
    · simp only [true_iff]
      exact ⟨fun hd => hd.elim h1 h2, Or.inr h4⟩
    · simp only [false_iff]
      intro hc
      exact hc.2 (Or.inr h4)
  · simp only [reduceCtorEq]
    refine ⟨by simp [h1, h2], ?_, ?_⟩
    · simp only [false_iff]
      intro hc
      exact hc.2.elim h3 h4
    · simp only [true_iff]
      exact ⟨fun hd => hd.elim h1 h2, fun hn => hn.elim h3 h4⟩

/-- Claim C2: `timeMatch` returns EXACT iff both three-way comparisons are
zero, SUBSET iff `s ≤ 0` and `e ≥ 0` but not both zero, and NOPE otherwise
(which reduces to: not (`s ≤ 0` and `e ≥ 0`)). -/
theorem claim_C2 (calendarStart calendarEnd ourStart ourEnd : Int) :
    (timeMatch calendarStart calendarEnd ourStart ourEnd = MatchStatus.EXACT ↔
      (pdtCompare calendarStart ourStart = 0 ∧
        pdtCompare calendarEnd ourEnd = 0)) ∧
    (timeMatch calendarStart calendarEnd ourStart ourEnd = MatchStatus.SUBSET ↔
      (pdtCompare calendarStart ourStart ≤ 0 ∧
        pdtCompare calendarEnd ourEnd ≥ 0 ∧
        ¬(pdtCompare calendarStart ourStart = 0 ∧
          pdtCompare calendarEnd ourEnd = 0))) ∧
    (timeMatch calendarStart calendarEnd ourStart ourEnd = MatchStatus.NOPE ↔
      ¬(pdtCompare calendarStart ourStart ≤ 0 ∧
        pdtCompare calendarEnd ourEnd ≥ 0)) := by
  unfold timeMatch
  dsimp only
  split <;> rename_i h1
  · simp only [reduceCtorEq, true_iff, false_iff]
    refine ⟨h1, ?_, ?_⟩
    · intro hc
      exact hc.2.2 h1
    · intro hc
      exact hc ⟨le_of_eq h1.1, ge_of_eq h1.2⟩
  split <;> rename_i h2
  · simp only [reduceCtorEq, true_iff, false_iff]
    exact ⟨h1, ⟨h2.1, h2.2, h1⟩, fun hc => hc ⟨h2.1, h2.2⟩⟩
  · simp only [reduceCtorEq, true_iff, false_iff]
    exact ⟨h1, fun hc => h2 ⟨hc.1, hc.2.1⟩, fun hc => h2 hc⟩

/-- Claim C3 (counterexample): the back-to-back pair `[09:00, 10:00]`,
`[10:00, 11:00]` is classified NEAR by `clashes` (the 10-minute buffer is
hard-coded into it), not NONE as the claim states. -/
theorem claim_C3_counterexample :
    clashes (mkMeeting 1 540 600 "u1") (mkMeeting 2 600 660 "u2") =
      ClashStatus.NEAR ∧
    clashes (mkMeeting 1 540 600 "u1") (mkMeeting 2 600 660 "u2") ≠
      ClashStatus.NONE := by
  constructor
  · rfl
  · intro h
    exact ClashStatus.noConfusion h

/-- Claim C3 (amended): for two meetings whose declared windows are
back-to-back with a shared boundary (the first ends exactly when the
second starts), `clashes` never reports a hard clash, but — because its
near-clash buffer is the fixed 10 minutes — it returns NEAR, not NONE. -/
theorem claim_C3_amended (a b : Meeting) (h1 : a.start < b.start)
    (h2 : a.«end» = b.start) (h3 : b.start ≤ b.«end») :
    clashes a b = ClashStatus.NEAR := by
  have hs : sortTwo a b = (a, b) := by
    unfold sortTwo
    rw [if_neg (by omega)]
  unfold clashes clashGap
  rw [hs]
  dsimp only
  simp only [pdtCompare_nonneg, pdtCompare_nonpos, pdtCompare_pos]
  split <;> rename_i hc1
  · exfalso; omega
  split <;> rename_i hc2
  · exfalso; omega
  split <;> rename_i hc3
  · rfl
  split <;> rename_i hc4
  · rfl
  · exfalso; omega

/-- Claim C3 (witness): the amended theorem applied to the concrete
back-to-back pair `[10:00, 11:00]`, `[11:00, 12:00]`. -/
theorem claim_C3_witness :
    (mkMeeting 1 600 660 "w1").start < (mkMeeting 2 660 720 "w2").start ∧
    (mkMeeting 1 600 660 "w1").«end» = (mkMeeting 2 660 720 "w2").start ∧
    (mkMeeting 2 660 720 "w2").start ≤ (mkMeeting 2 660 720 "w2").«end» ∧
    clashes (mkMeeting 1 600 660 "w1") (mkMeeting 2 660 720 "w2") =
      ClashStatus.NEAR :=
  ⟨by decide, by decide, by decide,
    claim_C3_amended _ _ (by decide) (by decide) (by decide)⟩

/-- `startOfDayFrom` from the source: the fixed date anchor of each
weekday, as minutes from 2025-11-10T00:00 (Monday). -/
def startOfDayFrom : Day → Int
  | Day.monday => 0
  | Day.tuesday => 1440
  | Day.wednesday => 2880
  | Day.thursday => 4320
  | Day.friday => 5760

/-- The `WorkingDay` record of the source. -/
structure WorkingDay where
  start : Int
  «end» : Int
deriving DecidableEq, Repr

/-- `workingDayFrom` from the source: 09:00 to 18:00 on the given day. -/
def workingDayFrom (day : Day) : WorkingDay :=
  let midnight := startOfDayFrom day
  { start := midnight + 9 * 60, «end» := midnight + 18 * 60 }

/-- One iteration of the gap-detection part of `main`'s per-attendee,
per-day loop (tsh.ts lines 965-974): emit a gap when the meeting starts
strictly after the `endOfLastMeeting` mark, then advance the mark to the
meeting's end when that end is strictly later. -/
def gapStep (st : Int × List Gap) (meeting : Meeting) : Int × List Gap :=
  let endOfLastMeeting := st.1
  let gaps :=
    if pdtCompare meeting.start endOfLastMeeting > 0 then
      st.2 ++ [{ start := endOfLastMeeting, «end» := meeting.start }]
    else st.2
  let mark :=
    if pdtCompare meeting.«end» endOfLastMeeting > 0 then meeting.«end»
    else endOfLastMeeting
  (mark, gaps)

/-- The whole gap computation of `main` for one attendee and one day:
fold `gapStep` from the working-day start, then emit the trailing gap when
the final mark is strictly before the working-day end (tsh.ts 940-982). -/
def gapsForDay (day : Day) (meetings : List Meeting) : List Gap :=
  let workingDay := workingDayFrom day
  let st := meetings.foldl gapStep (workingDay.start, [])
  if pdtCompare st.1 workingDay.«end» < 0 then
    st.2 ++ [{ start := st.1, «end» := workingDay.«end» }]
  else st.2

/-- The high-water-mark reference of claim C4, written from the claim's
words: each meeting whose start is strictly after the mark contributes
`[mark, meeting.start)`, the mark advances to `max mark meeting.end`, and
a trailing gap is emitted iff the final mark is strictly below the
working-day end. -/
def specGapStep (st : Int × List Gap) (m : Meeting) : Int × List Gap :=
  (max st.1 m.«end»,
    if st.1 < m.start then st.2 ++ [{ start := st.1, «end» := m.start }]
    else st.2)

/-- The reference gap list of claim C4 for one attendee and one day. -/
def specGaps (day : Day) (meetings : List Meeting) : List Gap :=
  let workingDay := workingDayFrom day
  let st := meetings.foldl specGapStep (workingDay.start, [])
  if st.1 < workingDay.«end» then
    st.2 ++ [{ start := st.1, «end» := workingDay.«end» }]
  else st.2

theorem gapStep_eq_specGapStep : gapStep = specGapStep := by
  funext st m
  unfold gapStep specGapStep
  simp only [pdtCompare_pos]
  rcases le_or_lt m.«end» st.1 with h | h
  · rw [if_neg (by omega), max_eq_left h]
  · rw [if_pos h, max_eq_right (le_of_lt h)]

/-- A meeting spanning the whole working day, for the fully-booked case. -/
def fullDayMeeting (day : Day) : Meeting :=
  mkMeeting 1 (workingDayFrom day).start (workingDayFrom day).«end» "full"

/-- Claim C4: for every attendee/day, the emitted gap list equals the
high-water-mark reference computed from the claim's words; a day with no
meetings yields the single gap `[09:00, 18:00)` and a fully booked day
yields no gaps. -/
theorem claim_C4 :
    (∀ (day : Day) (meetings : List Meeting),
      gapsForDay day meetings = specGaps day meetings) ∧
    (∀ day : Day,
      gapsForDay day [] =
        [{ start := (workingDayFrom day).start,
           «end» := (workingDayFrom day).«end» }]) ∧
    (∀ day : Day, gapsForDay day [fullDayMeeting day] = []) := by
  refine ⟨?_, ?_, ?_⟩
  · intro day meetings
    unfold gapsForDay specGaps
    rw [gapStep_eq_specGapStep]
    simp only [pdtCompare_neg]
  · intro day
    cases day <;> rfl
  · intro day
    cases day <;> rfl

/-- The `ClashingMeetingsSet` class of the source: a JavaScript
`Set<string>` of identifier strings plus the list of tag-sorted pairs. -/
structure ClashingMeetingsSet where
  idPairs : List String
  meetingPairs : List (Meeting × Meeting)

/-- The freshly constructed (empty) `ClashingMeetingsSet`. -/
def ClashingMeetingsSet.empty : ClashingMeetingsSet := ⟨[], []⟩

/-- The in-place sort of `[a, b]` by the comparator `a.tag - b.tag`
inside `ClashingMeetingsSet.add`: stable, so the pair is swapped exactly
when `b.tag < a.tag`. -/
def sortByTag (a b : Meeting) : Meeting × Meeting :=
  if b.tag < a.tag then (b, a) else (a, b)

/-- `sorted.map(m => m.tag).join(':')` from `ClashingMeetingsSet.add`. -/
def pairIdent (p : Meeting × Meeting) : String :=
  toString p.1.tag ++ ":" ++ toString p.2.tag

/-- `ClashingMeetingsSet.add` from the source: insert the tag-sorted pair
unless its identifier string is already in the set. -/
def ClashingMeetingsSet.add (s : ClashingMeetingsSet) (a b : Meeting) :
    ClashingMeetingsSet :=
  let sorted := sortByTag a b
  let ident := pairIdent sorted
  if ident ∈ s.idPairs then s
  else ⟨s.idPairs ++ [ident], s.meetingPairs ++ [sorted]⟩

/-- `ClashingMeetingsSet`'s `size` getter. -/
def ClashingMeetingsSet.size (s : ClashingMeetingsSet) : Nat :=
  s.meetingPairs.length

/-- The internal invariant of `ClashingMeetingsSet`: the identifier set
mirrors the stored pairs, and identifiers are unique. -/
def CMSInv (s : ClashingMeetingsSet) : Prop :=
  s.meetingPairs.map pairIdent = s.idPairs ∧ s.idPairs.Nodup

theorem CMSInv_empty : CMSInv ClashingMeetingsSet.empty := by
  constructor <;> simp [ClashingMeetingsSet.empty]

theorem CMSInv_add (s : ClashingMeetingsSet) (a b : Meeting)
    (h : CMSInv s) : CMSInv (s.add a b) := by
  unfold ClashingMeetingsSet.add
  dsimp only
  split <;> rename_i hmem
  · exact h
  · constructor
    · simp only [List.map_append, List.map_cons, List.map_nil, h.1]
    · rw [List.nodup_append]
      refine ⟨h.2, List.nodup_singleton _, ?_⟩
      intro x hx hx2
      simp only [List.mem_singleton] at hx2
      subst hx2
      exact hmem hx

/-- Three mutually clashing meetings for the deduplication test. -/
def meetA : Meeting := mkMeeting 1 540 600 "uA"

/-- Second of the three mutually clashing meetings. -/
def meetB : Meeting := mkMeeting 2 570 630 "uB"

/-- Third of the three mutually clashing meetings. -/
def meetC : Meeting := mkMeeting 3 590 650 "uC"

/-- Folding any sequence of `add` operations preserves the
`ClashingMeetingsSet` invariant. -/
theorem CMSInv_foldl (ops : List (Meeting × Meeting)) :
    ∀ s, CMSInv s → CMSInv (ops.foldl (fun s p => s.add p.1 p.2) s) := by
  induction ops with
  | nil => intro s hs; exact hs
  | cons p ps ih =>
    intro s hs
    exact ih _ (CMSInv_add _ _ _ hs)

/-- Claim C5: folding any sequence of `add` operations over a fresh
`ClashingMeetingsSet` stores each unordered pair at most once — the
identifier strings (the tag pairs sorted ascending) of the stored pairs
are pairwise distinct — and for three mutually clashing meetings, adding
all six ordered pairs yields a set of size exactly 3. -/
theorem claim_C5 :
    (∀ ops : List (Meeting × Meeting),
      ((ops.foldl (fun s p => s.add p.1 p.2)
        ClashingMeetingsSet.empty).meetingPairs.map pairIdent).Nodup) ∧
    ((((((ClashingMeetingsSet.empty.add meetA meetB).add meetB meetA).add
        meetA meetC).add meetC meetA).add meetB meetC).add
        meetC meetB).size = 3 := by
  constructor
  · intro ops
    have h := CMSInv_foldl ops ClashingMeetingsSet.empty CMSInv_empty
    rw [h.1]
    exact h.2
  · rfl

/-- `sameActualMeeting` from the source: same calendar URL and identical
declared start and end. -/
def sameActualMeeting (meeting other : Meeting) : Bool :=
  decide (meeting.calendarUrl = other.calendarUrl) &&
  decide (meeting.start = other.start) &&
  decide (meeting.«end» = other.«end»)

theorem sameActualMeeting_comm (a b : Meeting) :
    sameActualMeeting a b = sameActualMeeting b a := by
  unfold sameActualMeeting
  rcases eq_or_ne a.calendarUrl b.calendarUrl with h1 | h1 <;>
    rcases eq_or_ne a.start b.start with h2 | h2 <;>
      rcases eq_or_ne a.«end» b.«end» with h3 | h3 <;>
        simp [h1, h2, h3, Ne.symm, eq_comm]

/-- One comparison of the clash-detection inner loop of `main`
(tsh.ts 946-963): the `meeting === other` guard is modelled by comparing
list positions, then the identity filter, then the `switch` on `clashes`.
The state is the pair (DEFO set, NEAR set) for the current attendee. -/
def clashStep (p q : Nat × Meeting)
    (st : ClashingMeetingsSet × ClashingMeetingsSet) :
    ClashingMeetingsSet × ClashingMeetingsSet :=
  if p.1 = q.1 then st
  else if sameActualMeeting p.2 q.2 then st
  else
    match clashes p.2 q.2 with
    | ClashStatus.DEFO => (st.1.add p.2 q.2, st.2)
    | ClashStatus.NEAR => (st.1, st.2.add p.2 q.2)
    | ClashStatus.NONE => st

/-- The all-pairs clash scan of `main` over one attendee's meetings for
one day, producing that attendee's (DEFO set, NEAR set). -/
def scanClashes (meetings : List Meeting) :
    ClashingMeetingsSet × ClashingMeetingsSet :=
  meetings.enum.foldl
    (fun st p => meetings.enum.foldl (fun st q => clashStep p q st) st)
    (ClashingMeetingsSet.empty, ClashingMeetingsSet.empty)

/-- A clash set is clean when none of its stored pairs is the same actual
meeting booked twice. -/
def CMSClean (s : ClashingMeetingsSet) : Prop :=
  ∀ p ∈ s.meetingPairs, sameActualMeeting p.1 p.2 = false

theorem CMSClean_add (s : ClashingMeetingsSet) (a b : Meeting)
    (hs : CMSClean s) (hab : sameActualMeeting a b = false) :
    CMSClean (s.add a b) := by
  unfold ClashingMeetingsSet.add
  dsimp only
  split
  · exact hs
  · intro p hp
    rw [List.mem_append] at hp
    rcases hp with hp | hp
    · exact hs p hp
    · simp only [List.mem_singleton] at hp
      subst hp
      unfold sortByTag
      split
      · rw [← sameActualMeeting_comm]
        exact hab
      · exact hab

theorem clashStep_clean (p q : Nat × Meeting)
    (st : ClashingMeetingsSet × ClashingMeetingsSet)
    (h1 : CMSClean st.1) (h2 : CMSClean st.2) :
    CMSClean (clashStep p q st).1 ∧ CMSClean (clashStep p q st).2 := by
  unfold clashStep
  split
  · exact ⟨h1, h2⟩
  split <;> rename_i hsame
  · exact ⟨h1, h2⟩
  · rw [Bool.not_eq_true] at hsame
    split
    · exact ⟨CMSClean_add _ _ _ h1 hsame, h2⟩
    · exact ⟨h1, CMSClean_add _ _ _ h2 hsame⟩
    · exact ⟨h1, h2⟩

theorem scan_inner_clean (p : Nat × Meeting) (l : List (Nat × Meeting)) :
    ∀ st, CMSClean st.1 → CMSClean st.2 →
      CMSClean (l.foldl (fun st q => clashStep p q st) st).1 ∧
      CMSClean (l.foldl (fun st q => clashStep p q st) st).2 := by
  induction l with
  | nil => intro st h1 h2; exact ⟨h1, h2⟩
  | cons q qs ih =>
    intro st h1 h2
    have h := clashStep_clean p q st h1 h2
    exact ih _ h.1 h.2

theorem scan_outer_clean (inner : List (Nat × Meeting))
    (l : List (Nat × Meeting)) :
    ∀ st, CMSClean st.1 → CMSClean st.2 →
      CMSClean (l.foldl
        (fun st p => inner.foldl (fun st q => clashStep p q st) st) st).1 ∧
      CMSClean (l.foldl
        (fun st p => inner.foldl (fun st q => clashStep p q st) st) st).2 := by
  induction l with
  | nil => intro st h1 h2; exact ⟨h1, h2⟩
  | cons p ps ih =>
    intro st h1 h2
    have h := scan_inner_clean p inner st h1 h2
    exact ih _ h.1 h.2

/-- Claim C6: two meetings that share the same calendar URL and identical
declared start and end are never stored — in either orientation — in the
DEFO or NEAR clash sets produced by the per-attendee scan: the
`sameActualMeeting` filter skips the pair before classification. -/
theorem claim_C6 (ms : List Meeting) (a b : Meeting)
    (h : sameActualMeeting a b = true) :
    ((a, b) ∉ (scanClashes ms).1.meetingPairs ∧
      (b, a) ∉ (scanClashes ms).1.meetingPairs) ∧
    ((a, b) ∉ (scanClashes ms).2.meetingPairs ∧
      (b, a) ∉ (scanClashes ms).2.meetingPairs) := by
  have hclean := scan_outer_clean ms.enum ms.enum
    (ClashingMeetingsSet.empty, ClashingMeetingsSet.empty)
    (by intro p hp; exact absurd hp (List.not_mem_nil p))
    (by intro p hp; exact absurd hp (List.not_mem_nil p))
  have hba : sameActualMeeting b a = true := by
    rw [← sameActualMeeting_comm]; exact h
  unfold scanClashes
  refine ⟨⟨?_, ?_⟩, ?_, ?_⟩ <;> intro hmem
  · have := hclean.1 (a, b) hmem
    rw [h] at this
    exact Bool.noConfusion this
  · have := hclean.1 (b, a) hmem
    rw [hba] at this
    exact Bool.noConfusion this
  · have := hclean.2 (a, b) hmem
    rw [h] at this
    exact Bool.noConfusion this
  · have := hclean.2 (b, a) hmem
    rw [hba] at this
    exact Bool.noConfusion this

/-- The same real meeting filed in two repos: same calendar URL, same
declared window, different tags. -/
def dupA : Meeting := mkMeeting 1 600 660 "https://www.w3.org/events/meetings/x"

/-- Second filing of the same real meeting (different tag). -/
def dupB : Meeting := mkMeeting 2 600 660 "https://www.w3.org/events/meetings/x"

/-- Claim C6 (witness): the identity-filter theorem applied to the
concrete two-element scan of two identical bookings. -/
theorem claim_C6_witness :
    sameActualMeeting dupA dupB = true ∧
    (((dupA, dupB) ∉ (scanClashes [dupA, dupB]).1.meetingPairs ∧
      (dupB, dupA) ∉ (scanClashes [dupA, dupB]).1.meetingPairs) ∧
     ((dupA, dupB) ∉ (scanClashes [dupA, dupB]).2.meetingPairs ∧
      (dupB, dupA) ∉ (scanClashes [dupA, dupB]).2.meetingPairs)) :=
  ⟨by decide, claim_C6 [dupA, dupB] dupA dupB (by decide)⟩

/-- `isMeetingInGap` from the source: all four endpoint comparisons are
inclusive.  (The `buffer` constant declared inside it is unused.) -/
def isMeetingInGap (m : Meeting) (g : Gap) : Bool :=
  decide (pdtCompare m.start g.start ≥ 0) &&
  decide (pdtCompare m.start g.«end» ≤ 0) &&
  decide (pdtCompare m.«end» g.start ≥ 0) &&
  decide (pdtCompare m.«end» g.«end» ≤ 0)

theorem isMeetingInGap_iff {m : Meeting} {g : Gap}
    (h : m.start ≤ m.«end») :
    isMeetingInGap m g = true ↔
      (g.start ≤ m.start ∧ m.«end» ≤ g.«end») := by
  unfold isMeetingInGap
  simp only [Bool.and_eq_true, decide_eq_true_eq, pdtCompare_nonneg,
    pdtCompare_nonpos]
  constructor
  · rintro ⟨⟨⟨h1, h2⟩, h3⟩, h4⟩
    exact ⟨h1, h4⟩
  · rintro ⟨h1, h2⟩
    exact ⟨⟨⟨h1, by omega⟩, by omega⟩, h2⟩

/-- One iteration of the `alternatives` loop from the source: skip names
already on the meeting, skip names excluded by a non-empty allow-list,
otherwise push the name once per gap (on the meeting's declared day) that
contains the meeting. -/
def altStep (alts : List String) (m : Meeting) (out : List String)
    (entry : String × (Day → List Gap)) : List String :=
  if entry.1 ∈ m.names then out
  else if alts.length > 0 ∧ entry.1 ∉ alts then out
  else (entry.2 m.day).foldl
    (fun out gap => if isMeetingInGap m gap then out ++ [entry.1] else out)
    out

/-- `alternatives` from the source.  The `PersonDayGaps` map is modelled
as an association list of (name, per-day gap lists) in insertion order. -/
def alternatives (alts : List String)
    (pdg : List (String × (Day → List Gap))) (m : Meeting) : List String :=
  pdg.foldl (altStep alts m) []

theorem alt_mem_inner (m : Meeting) (nm : String) (gaps : List Gap) :
    ∀ (out : List String) (x : String),
      (x ∈ gaps.foldl
        (fun out gap => if isMeetingInGap m gap then out ++ [nm] else out)
        out) ↔
      (x ∈ out ∨ (x = nm ∧ ∃ g ∈ gaps, isMeetingInGap m g = true)) := by
  induction gaps with
  | nil =>
    intro out x
    simp
  | cons g gs ih =>
    intro out x
    rw [List.foldl_cons]
    split <;> rename_i hg
    · rw [ih]
      constructor
      · rintro (hx | ⟨hxeq, g2, hg2, hgood⟩)
        · rw [List.mem_append, List.mem_singleton] at hx
          rcases hx with hx | hx
          · exact Or.inl hx
          · exact Or.inr ⟨hx, g, List.mem_cons_self g gs, hg⟩
        · exact Or.inr ⟨hxeq, g2, List.mem_cons_of_mem _ hg2, hgood⟩
      · rintro (hx | ⟨hxeq, g2, hg2, hgood⟩)
        · exact Or.inl (by rw [List.mem_append]; exact Or.inl hx)
        · rcases List.mem_cons.mp hg2 with rfl | hg3
          · exact Or.inl
              (by rw [List.mem_append, List.mem_singleton]; exact Or.inr hxeq)
          · exact Or.inr ⟨hxeq, g2, hg3, hgood⟩
    · rw [ih]
      constructor
      · rintro (hx | ⟨hxeq, g2, hg2, hgood⟩)
        · exact Or.inl hx
        · exact Or.inr ⟨hxeq, g2, List.mem_cons_of_mem _ hg2, hgood⟩
      · rintro (hx | ⟨hxeq, g2, hg2, hgood⟩)
        · exact Or.inl hx
        · rcases List.mem_cons.mp hg2 with rfl | hg3
          · exact absurd hgood hg
          · exact Or.inr ⟨hxeq, g2, hg3, hgood⟩

theorem alt_mem_outer (alts : List String) (m : Meeting)
    (l : List (String × (Day → List Gap))) :
    ∀ (out : List String) (x : String),
      (x ∈ l.foldl (altStep alts m) out) ↔
      (x ∈ out ∨ ∃ gm, (x, gm) ∈ l ∧ x ∉ m.names ∧
        (alts = [] ∨ x ∈ alts) ∧
        ∃ g ∈ gm m.day, isMeetingInGap m g = true) := by
  induction l with
  | nil =>
    intro out x
    simp
  | cons e es ih =>
    obtain ⟨nm, gmap⟩ := e
    intro out x
    rw [List.foldl_cons, ih]
    unfold altStep
    dsimp only
    split <;> rename_i h1
    · constructor
      · rintro (hx | ⟨gm, hgm, hn, ha, hg⟩)
        · exact Or.inl hx
        · exact Or.inr ⟨gm, List.mem_cons_of_mem _ hgm, hn, ha, hg⟩
      · rintro (hx | ⟨gm, hgm, hn, ha, hg⟩)
        · exact Or.inl hx
        · rcases List.mem_cons.mp hgm with heq | hgm2
          · have hx1 : x = nm := (Prod.ext_iff.mp heq).1
            rw [hx1] at hn
            exact absurd h1 hn
          · exact Or.inr ⟨gm, hgm2, hn, ha, hg⟩
    split <;> rename_i h2
    · constructor
      · rintro (hx | ⟨gm, hgm, hn, ha, hg⟩)
        · exact Or.inl hx
        · exact Or.inr ⟨gm, List.mem_cons_of_mem _ hgm, hn, ha, hg⟩
      · rintro (hx | ⟨gm, hgm, hn, ha, hg⟩)
        · exact Or.inl hx
        · rcases List.mem_cons.mp hgm with heq | hgm2
          · exfalso
            have hx1 : x = nm := (Prod.ext_iff.mp heq).1
            rcases ha with ha | ha
            · rw [ha] at h2
              exact absurd h2.1 (by simp)
            · rw [hx1] at ha
              exact h2.2 ha
          · exact Or.inr ⟨gm, hgm2, hn, ha, hg⟩
    · rw [alt_mem_inner]
      constructor
      · rintro ((hx | ⟨hxeq, hgaps⟩) | ⟨gm, hgm, hn, ha, hg⟩)
        · exact Or.inl hx
        · refine Or.inr ⟨gmap, ?_, ?_, ?_, hgaps⟩
          · rw [hxeq]
            exact List.mem_cons_self _ _
          · rw [hxeq]
            exact h1
          · rw [hxeq]
            rcases Decidable.em (alts.length > 0) with hl | hl
            · right
              by_contra hc
              exact h2 ⟨hl, hc⟩
            · left
              exact List.length_eq_zero.mp (by omega)
        · exact Or.inr ⟨gm, List.mem_cons_of_mem _ hgm, hn, ha, hg⟩
      · rintro (hx | ⟨gm, hgm, hn, ha, hg⟩)
        · exact Or.inl (Or.inl hx)
        · rcases List.mem_cons.mp hgm with heq | hgm2
          · refine Or.inl (Or.inr ⟨(Prod.ext_iff.mp heq).1, ?_⟩)
            have : gm = gmap := (Prod.ext_iff.mp heq).2
            rw [← this]
            exact hg
          · exact Or.inr ⟨gm, hgm2, hn, ha, hg⟩

/-- Claim C8: a candidate name is collected into a meeting's alternatives
iff it has a gap-map entry, is not already among the meeting's attendee
names, passes the allow-list when one is given, and has a gap on the
meeting's declared day containing the meeting's window with inclusive
bounds; concretely, a gap `[09:00, 12:00]` qualifies for `[10:00, 11:00]`
but not for `[08:30, 09:30]` nor `[11:00, 13:00]`. -/
theorem claim_C8 (alts : List String)
    (pdg : List (String × (Day → List Gap))) (m : Meeting) (nm : String)
    (h : m.start ≤ m.«end») :
    (nm ∈ alternatives alts pdg m ↔
      ∃ gm, (nm, gm) ∈ pdg ∧ nm ∉ m.names ∧ (alts = [] ∨ nm ∈ alts) ∧
        ∃ g ∈ gm m.day, g.start ≤ m.start ∧ m.«end» ≤ g.«end») ∧
    isMeetingInGap (mkMeeting 1 600 660 "u") { start := 540, «end» := 720 }
      = true ∧
    isMeetingInGap (mkMeeting 2 510 570 "u") { start := 540, «end» := 720 }
      = false ∧
    isMeetingInGap (mkMeeting 3 660 780 "u") { start := 540, «end» := 720 }
      = false := by
  refine ⟨?_, by decide, by decide, by decide⟩
  unfold alternatives
  rw [alt_mem_outer]
  constructor
  · rintro (hx | ⟨gm, hgm, hn, ha, g, hg, hgood⟩)
    · exact absurd hx (List.not_mem_nil _)
    · exact ⟨gm, hgm, hn, ha, g, hg, (isMeetingInGap_iff h).mp hgood⟩
  · rintro ⟨gm, hgm, hn, ha, g, hg, hgood⟩
    exact Or.inr ⟨gm, hgm, hn, ha, g, hg, (isMeetingInGap_iff h).mpr hgood⟩

/-- A candidate's gap map for the C8 witness: the gap `[09:00, 12:00]`
on every day. -/
def witnessGapMap : Day → List Gap := fun _ => [{ start := 540, «end» := 720 }]

/-- Claim C8 (witness): the characterization applied to a concrete
meeting `[10:00, 11:00]` and one candidate with gap `[09:00, 12:00]`. -/
theorem claim_C8_witness :
    (mkMeeting 1 600 660 "u").start ≤ (mkMeeting 1 600 660 "u").«end» ∧
    (("helper" ∈ alternatives [] [("helper", witnessGapMap)]
        (mkMeeting 1 600 660 "u") ↔
      ∃ gm, ("helper", gm) ∈ [("helper", witnessGapMap)] ∧
        "helper" ∉ (mkMeeting 1 600 660 "u").names ∧
        (([] : List String) = [] ∨ "helper" ∈ ([] : List String)) ∧
        ∃ g ∈ gm (mkMeeting 1 600 660 "u").day,
          g.start ≤ (mkMeeting 1 600 660 "u").start ∧
          (mkMeeting 1 600 660 "u").«end» ≤ g.«end») ∧
      isMeetingInGap (mkMeeting 1 600 660 "u")
        { start := 540, «end» := 720 } = true ∧
      isMeetingInGap (mkMeeting 2 510 570 "u")
        { start := 540, «end» := 720 } = false ∧
      isMeetingInGap (mkMeeting 3 660 780 "u")
        { start := 540, «end» := 720 } = false) :=
  ⟨by decide,
    claim_C8 [] [("helper", witnessGapMap)] (mkMeeting 1 600 660 "u")
      "helper" (by decide)⟩

/-- `String.prototype.split` with a one-character separator, over
character lists (structurally recursive, so concrete instances compute
inside the kernel). -/
def splitChars (sep : Char) : List Char → List (List Char)
  | [] => [[]]
  | c :: rest =>
    match splitChars sep rest with
    | [] => [[]]
    | cur :: groups =>
      if c = sep then [] :: cur :: groups else (c :: cur) :: groups

/-- `Array.prototype.join` with a one-character separator. -/
def joinChars (sep : Char) : List (List Char) → List Char
  | [] => []
  | [x] => x
  | x :: xs => x ++ sep :: joinChars sep xs

/-- `repo` from the source: strip the first 19 characters of the issue
URL (the scheme and host), split on `/`, drop the last two path segments
(`issues/<n>`), and re-join. -/
def repoOf (issueUrl : String) : String :=
  String.mk
    (joinChars '/' (((splitChars '/' (issueUrl.toList.drop 19))).dropLast.dropLast))

/-- The grouping step shared by `addRepoMeeting` and `Object.groupBy` in
the source: push onto the existing entry for the key, else append a new
entry (JavaScript `Map`s and `Object.groupBy` keep insertion order). -/
def addToGroup : List (String × List Meeting) → String → Meeting →
    List (String × List Meeting)
  | [], k, meeting => [(k, [meeting])]
  | (k0, l0) :: rest, k, meeting =>
    if k0 = k then (k0, l0 ++ [meeting]) :: rest
    else (k0, l0) :: addToGroup rest k meeting

/-- Group a meeting list by a string key, in insertion order. -/
def groupBy (key : Meeting → String) (ms : List Meeting) :
    List (String × List Meeting) :=
  ms.foldl (fun mp m => addToGroup mp (key m) m) []

/-- `Map.get` (and object indexing) for the grouping model, with `[]` for
an absent key. -/
def getGroup : List (String × List Meeting) → String → List Meeting
  | [], _ => []
  | (k0, l0) :: rest, r => if k0 = r then l0 else getGroup rest r

/-- The repo-keyed meeting map built by `main` (tsh.ts 911, 928). -/
def repoMeetingsOf (ms : List Meeting) : List (String × List Meeting) :=
  groupBy (fun m => repoOf m.issueUrl) ms

/-- The duplicate detector of `main` (tsh.ts 990-998) applied to one
repo's meeting list: group by calendar URL, keep groups with more than
one member. -/
def possibleDupes (meetings : List Meeting) : List (List Meeting) :=
  ((groupBy (fun m => m.calendarUrl) meetings).map Prod.snd).filter
    (fun group => decide (group.length > 1))

theorem getGroup_addToGroup (mp : List (String × List Meeting))
    (k : String) (meeting : Meeting) (r : String) :
    getGroup (addToGroup mp k meeting) r =
      if r = k then getGroup mp r ++ [meeting] else getGroup mp r := by
  induction mp with
  | nil =>
    unfold addToGroup getGroup
    rcases eq_or_ne r k with h | h
    · rw [if_pos h.symm, if_pos h]
      rfl
    · rw [if_neg (Ne.symm h), if_neg h]
      rfl
  | cons e rest ih =>
    obtain ⟨k0, l0⟩ := e
    unfold addToGroup
    split <;> rename_i hk0
    · subst hk0
      unfold getGroup
      rcases eq_or_ne k0 r with h | h
      · rw [if_pos h, if_pos h, if_pos h.symm]
      · rw [if_neg h, if_neg h, if_neg (Ne.symm h)]
    · unfold getGroup
      rcases eq_or_ne k0 r with h | h
      · rw [if_pos h, if_pos h, if_neg (by rw [← h]; exact hk0)]
      · rw [if_neg h, if_neg h, ih]

theorem getGroup_groupBy_fold (key : Meeting → String) (ms : List Meeting) :
    ∀ (mp : List (String × List Meeting)) (r : String),
      getGroup (ms.foldl (fun mp m => addToGroup mp (key m) m) mp) r =
        getGroup mp r ++ ms.filter (fun m => decide (key m = r)) := by
  induction ms with
  | nil =>
    intro mp r
    simp
  | cons m ms2 ih =>
    intro mp r
    rw [List.foldl_cons, ih, getGroup_addToGroup]
    rcases eq_or_ne (key m) r with h | h
    · rw [if_pos h.symm, List.filter_cons_of_pos (by simp [h]),
        List.append_assoc]
      rfl
    · rw [if_neg (Ne.symm h), List.filter_cons_of_neg (by simp [h])]

theorem getGroup_groupBy (key : Meeting → String) (ms : List Meeting)
    (r : String) :
    getGroup (groupBy key ms) r = ms.filter (fun m => decide (key m = r)) := by
  unfold groupBy
  rw [getGroup_groupBy_fold]
  rfl

theorem keys_addToGroup (mp : List (String × List Meeting)) (k : String)
    (meeting : Meeting) :
    (addToGroup mp k meeting).map Prod.fst =
      if k ∈ mp.map Prod.fst then mp.map Prod.fst
      else mp.map Prod.fst ++ [k] := by
  induction mp with
  | nil => simp [addToGroup]
  | cons e rest ih =>
    obtain ⟨k0, l0⟩ := e
    unfold addToGroup
    split <;> rename_i hk0
    · subst hk0
      simp
    · simp only [List.map_cons, List.mem_cons]
      rw [ih]
      rcases Decidable.em (k ∈ rest.map Prod.fst) with hin | hin
      · rw [if_pos hin, if_pos (Or.inr hin)]
      · rw [if_neg hin,
          if_neg (by rintro (hc | hc)
                     · exact hk0 hc.symm
                     · exact hin hc),
          List.cons_append]

theorem keys_nodup_addToGroup (mp : List (String × List Meeting))
    (k : String) (meeting : Meeting)
    (h : (mp.map Prod.fst).Nodup) :
    ((addToGroup mp k meeting).map Prod.fst).Nodup := by
  rw [keys_addToGroup]
  split <;> rename_i hin
  · exact h
  · rw [List.nodup_append]
    refine ⟨h, List.nodup_singleton _, ?_⟩
    intro x hx hx2
    simp only [List.mem_singleton] at hx2
    subst hx2
    exact hin hx

theorem keys_nodup_groupBy_fold (key : Meeting → String)
    (ms : List Meeting) :
    ∀ mp : List (String × List Meeting), (mp.map Prod.fst).Nodup →
      (((ms.foldl (fun mp m => addToGroup mp (key m) m) mp)).map
        Prod.fst).Nodup := by
  induction ms with
  | nil => intro mp h; exact h
  | cons m ms2 ih =>
    intro mp h
    exact ih _ (keys_nodup_addToGroup mp (key m) m h)

theorem getGroup_of_mem (mp : List (String × List Meeting))
    (u : String) (g : List Meeting)
    (hnd : (mp.map Prod.fst).Nodup) (hmem : (u, g) ∈ mp) :
    getGroup mp u = g := by
  induction mp with
  | nil => exact absurd hmem (List.not_mem_nil _)
  | cons e rest ih =>
    obtain ⟨k0, l0⟩ := e
    rcases List.mem_cons.mp hmem with heq | hmem2
    · have hu : u = k0 := (Prod.ext_iff.mp heq).1
      have hl : g = l0 := (Prod.ext_iff.mp heq).2
      unfold getGroup
      rw [if_pos hu.symm, hl]
    · have hk0 : k0 ∉ rest.map Prod.fst :=
        (List.nodup_cons.mp (by simpa using hnd)).1
      have hu : u ∈ rest.map Prod.fst :=
        List.mem_map.mpr ⟨(u, g), hmem2, rfl⟩
      unfold getGroup
      rw [if_neg (fun hc => hk0 (by rw [hc]; exact hu))]
      exact ih (List.nodup_cons.mp (by simpa using hnd)).2 hmem2

theorem mem_of_getGroup_ne_nil (mp : List (String × List Meeting))
    (u : String) (h : getGroup mp u ≠ []) :
    (u, getGroup mp u) ∈ mp := by
  induction mp with
  | nil => exact absurd rfl h
  | cons e rest ih =>
    obtain ⟨k0, l0⟩ := e
    unfold getGroup at h ⊢
    split <;> rename_i hk0
    · subst hk0
      exact List.mem_cons_self _ _
    · rw [if_neg hk0] at h
      exact List.mem_cons_of_mem _ (ih h)

/-- Claim C9: within the per-repo grouping of valid meetings, the
duplicate detector flags exactly the calendar-URL sub-groups of size
strictly greater than 1; the repo grouping itself is the filter of the
meeting list by repo, so a meeting from a different repo (even with the
same calendar URL) never enters a flagged group. -/
theorem claim_C9 (ms : List Meeting) (r : String) (g : List Meeting) :
    (getGroup (repoMeetingsOf ms) r =
      ms.filter (fun m => decide (repoOf m.issueUrl = r))) ∧
    (g ∈ possibleDupes (getGroup (repoMeetingsOf ms) r) ↔
      (1 < g.length ∧ ∃ url,
        g = (getGroup (repoMeetingsOf ms) r).filter
          (fun m => decide (m.calendarUrl = url)))) ∧
    (g ∈ possibleDupes (getGroup (repoMeetingsOf ms) r) →
      ∀ m ∈ g, m ∈ ms ∧ repoOf m.issueUrl = r) := by
  have hrepo : getGroup (repoMeetingsOf ms) r =
      ms.filter (fun m => decide (repoOf m.issueUrl = r)) :=
    getGroup_groupBy _ ms r
  have hmain : ∀ rms : List Meeting,
      (g ∈ possibleDupes rms ↔
        (1 < g.length ∧ ∃ url,
          g = rms.filter (fun m => decide (m.calendarUrl = url)))) := by
    intro rms
    unfold possibleDupes
    rw [List.mem_filter]
    constructor
    · rintro ⟨hmap, hlen⟩
      obtain ⟨p, hp, hpg⟩ := List.mem_map.mp hmap
      obtain ⟨u, g2⟩ := p
      have hnd : (((groupBy (fun m => m.calendarUrl) rms)).map
          Prod.fst).Nodup :=
        keys_nodup_groupBy_fold _ rms [] (by simp)
      have := getGroup_of_mem _ u g2 hnd hp
      rw [getGroup_groupBy] at this
      refine ⟨by simpa using hlen, u, ?_⟩
      rw [← hpg]
      exact this.symm
    · rintro ⟨hlen, u, hg⟩
      have hge : getGroup (groupBy (fun m => m.calendarUrl) rms) u = g := by
        rw [getGroup_groupBy]
        exact hg.symm
      have hne : getGroup (groupBy (fun m => m.calendarUrl) rms) u ≠ [] := by
        rw [hge]
        intro hc
        rw [hc] at hlen
        simp at hlen
      have hmem := mem_of_getGroup_ne_nil _ u hne
      rw [hge] at hmem
      refine ⟨List.mem_map.mpr ⟨(u, g), hmem, rfl⟩, by simpa using hlen⟩
  refine ⟨hrepo, hmain _, ?_⟩
  intro hdupe m hm
  obtain ⟨hlen, u, hg⟩ := (hmain _).mp hdupe
  rw [hg] at hm
  have hm2 := List.mem_filter.mp hm
  rw [hrepo] at hm2
  have hm3 := List.mem_filter.mp hm2.1
  exact ⟨hm3.1, by simpa using hm3.2⟩

/-- Two meetings in one repo sharing a calendar URL, plus a third meeting
in a different repo with the same URL, for the C9 witness. -/
def repoDupX : Meeting :=
  { mkMeeting 1 540 600 "https://www.w3.org/events/meetings/shared" with
    issueUrl := "https://github.com/org1/repo1/issues/1" }

/-- Second filing of the same calendar URL in the same repo. -/
def repoDupY : Meeting :=
  { mkMeeting 2 600 660 "https://www.w3.org/events/meetings/shared" with
    issueUrl := "https://github.com/org1/repo1/issues/2" }

/-- A filing of the same calendar URL from a different repo. -/
def repoDupZ : Meeting :=
  { mkMeeting 3 540 600 "https://www.w3.org/events/meetings/shared" with
    issueUrl := "https://github.com/org2/repo2/issues/7" }

/-- Claim C9 (witness): at the three-meeting example, the two same-URL
meetings of org1/repo1 form a flagged group, and by the theorem every
meeting of that group comes from the input list and from org1/repo1 —
so the same-URL meeting filed in org2/repo2 is not in it. -/
theorem claim_C9_witness :
    ([repoDupX, repoDupY] ∈
      possibleDupes (getGroup
        (repoMeetingsOf [repoDupX, repoDupY, repoDupZ]) "org1/repo1")) ∧
    (∀ m ∈ ([repoDupX, repoDupY] : List Meeting),
      m ∈ [repoDupX, repoDupY, repoDupZ] ∧
      repoOf m.issueUrl = "org1/repo1") :=
  ⟨by decide,
    (claim_C9 [repoDupX, repoDupY, repoDupZ] "org1/repo1"
      [repoDupX, repoDupY]).2.2 (by decide)⟩

/-- `Partial<Meeting>`: the record shape `meetingFromIssue` actually
returns, with every field possibly `undefined`. -/
structure PartialMeeting where
  tag : Option Nat
  kind : Option Kind
  calendarTitle : Option String
  title : Option String
  calendarDay : Option Day
  day : Option Day
  calendarStart : Option Int
  start : Option Int
  calendarEnd : Option Int
  «end» : Option Int
  «match» : Option MatchStatus
  calendarRoom : Option String
  names : Option (List String)
  calendarUrl : Option String
  issueUrl : Option String
  alternatives : Option (List String)
  notes : Option String
deriving DecidableEq, Repr

/-- JavaScript `!!` on a possibly-missing number: `undefined` and `0` are
falsy. -/
def truthyNat : Option Nat → Bool
  | none => false
  | some n => decide (n ≠ 0)

/-- JavaScript `!!` on a possibly-missing string: `undefined` and the
empty string are falsy. -/
def truthyString : Option String → Bool
  | none => false
  | some s => decide (s ≠ "")

/-- JavaScript `!!` on a possibly-missing object — a
`Temporal.PlainDateTime`, an array, or one of the non-empty enum string
constants (`Kind`, `Day`, `MatchStatus`): falsy only when `undefined`.
In particular an empty `names`/`alternatives` array is truthy, and a
date-time is truthy whatever instant it denotes. -/
def truthyObj {α : Type _} : Option α → Bool
  | none => false
  | some _ => true

/-- `isMeeting` from the source: every required field tested with `!!`. -/
def isMeeting (p : PartialMeeting) : Bool :=
  truthyNat p.tag &&
  truthyObj p.kind &&
  truthyString p.calendarTitle &&
  truthyString p.title &&
  truthyObj p.calendarDay &&
  truthyObj p.day &&
  truthyObj p.calendarStart &&
  truthyObj p.start &&
  truthyObj p.calendarEnd &&
  truthyObj p.«end» &&
  truthyObj p.«match» &&
  truthyString p.calendarRoom &&
  truthyObj p.names &&
  truthyString p.calendarUrl &&
  truthyString p.issueUrl &&
  truthyObj p.alternatives

/-- Claim C10: `isMeeting` tests required fields for JavaScript
truthiness, so a record with any required string field present but equal
to `""` — room, calendar title, issue title, calendar URL, or issue URL —
is rejected (and hence treated as a Partial Meeting) even when every
field is populated. -/
theorem claim_C10 (p : PartialMeeting)
    (h : p.calendarRoom = some "" ∨ p.calendarTitle = some "" ∨
      p.title = some "" ∨ p.calendarUrl = some "" ∨
      p.issueUrl = some "") :
    isMeeting p = false := by
  unfold isMeeting
  rcases h with h | h | h | h | h <;>
    simp [h, truthyString]

/-- A fully populated candidate record whose room is the empty string. -/
def emptyRoomRecord : PartialMeeting :=
  { tag := some 1
    kind := some Kind.group
    calendarTitle := some "Calendar title"
    title := some "Issue title"
    calendarDay := some Day.monday
    day := some Day.monday
    calendarStart := some 540
    start := some 540
    calendarEnd := some 600
    «end» := some 600
    «match» := some MatchStatus.EXACT
    calendarRoom := some ""
    names := some ["alice"]
    calendarUrl := some "https://www.w3.org/events/meetings/x"
    issueUrl := some "https://github.com/org/repo/issues/1"
    alternatives := some []
    notes := some "" }

/-- Claim C10 (witness): the theorem applied to a record in which every
field is populated but the room string is empty. -/
theorem claim_C10_witness :
    (emptyRoomRecord.calendarRoom = some "" ∨
      emptyRoomRecord.calendarTitle = some "" ∨
      emptyRoomRecord.title = some "" ∨
      emptyRoomRecord.calendarUrl = some "" ∨
      emptyRoomRecord.issueUrl = some "") ∧
    isMeeting emptyRoomRecord = false :=
  ⟨Or.inl rfl, claim_C10 emptyRoomRecord (Or.inl rfl)⟩

/-- `body.split(/\r?\n/)`: a separator is `"\r\n"` or a bare `"\n"`;
a `"\r"` not followed by `"\n"` stays in the line. -/
def splitNewlines : List Char → List (List Char)
  | [] => [[]]
  | '\r' :: '\n' :: rest => [] :: splitNewlines rest
  | '\n' :: rest => [] :: splitNewlines rest
  | c :: rest =>
    match splitNewlines rest with
    | [] => [[c]]
    | cur :: groups => (c :: cur) :: groups

/-- The time-range separator regex of `extractBodyInfo`: a hyphen or
en-dash with one optional space on each side, matched greedily at the
leftmost position. -/
def splitDash : List Char → List (List Char)
  | [] => [[]]
  | ' ' :: '-' :: ' ' :: rest => [] :: splitDash rest
  | ' ' :: '–' :: ' ' :: rest => [] :: splitDash rest
  | ' ' :: '-' :: rest => [] :: splitDash rest
  | ' ' :: '–' :: rest => [] :: splitDash rest
  | '-' :: ' ' :: rest => [] :: splitDash rest
  | '–' :: ' ' :: rest => [] :: splitDash rest
  | '-' :: rest => [] :: splitDash rest
  | '–' :: rest => [] :: splitDash rest
  | c :: rest =>
    match splitDash rest with
    | [] => [[c]]
    | cur :: groups => (c :: cur) :: groups

/-- `split(/\s/)`: split on every single whitespace character. -/
def splitWs : List Char → List (List Char)
  | [] => [[]]
  | c :: rest =>
    match splitWs rest with
    | [] => [[]]
    | cur :: groups =>
      if c.isWhitespace then [] :: cur :: groups else (c :: cur) :: groups

/-- `replaceAll(',', '').replaceAll('@', '')` from `extractBodyInfo`. -/
def stripCommasAts (l : List Char) : List Char :=
  l.filter (fun c => ¬(c = ',' ∨ c = '@'))

/-- ASCII `toLowerCase` (the day tags are plain ASCII words). -/
def lowerChar (c : Char) : Char :=
  if 'A' ≤ c ∧ c ≤ 'Z' then Char.ofNat (c.toNat + 32) else c

/-- Lower-case a string, character-wise. -/
def lowerString (s : String) : String :=
  String.mk (s.toList.map lowerChar)

/-- The digits-prefix part of JavaScript `parseInt`: `NaN` (here `none`)
when no leading digit is present. -/
def parseDigits (l : List Char) : Option Nat :=
  let ds := l.takeWhile (fun c => c.isDigit)
  if ds.isEmpty then none
  else some (ds.foldl (fun n c => 10 * n + (c.toNat - 48)) 0)

/-- JavaScript `parseInt(s)` in base 10: skip leading whitespace, allow
one sign, read the digit prefix; `NaN` is modelled as `none`. -/
def parseIntJS (l : List Char) : Option Int :=
  let t := l.dropWhile (fun c => c.isWhitespace)
  match t with
  | '-' :: rest => (parseDigits rest).map (fun n => -(n : Int))
  | '+' :: rest => (parseDigits rest).map (fun n => (n : Int))
  | _ => (parseDigits t).map (fun n => (n : Int))

/-- `isDay` combined with the `Day` typing of the source: the five
recognised lower-case weekday tags. -/
def dayFromString : String → Option Day
  | "monday" => some Day.monday
  | "tuesday" => some Day.tuesday
  | "wednesday" => some Day.wednesday
  | "thursday" => some Day.thursday
  | "friday" => some Day.friday
  | _ => none

/-- `timeStringToPlainDateTime` from the source:
`[hours, minutes] = time.split(':').map(parseInt)` followed by
`startOfDay.add(Temporal.Duration.from({ hours, minutes }))`.
`Temporal.Duration.from` throws a `RangeError` when a field is `NaN`
(or when fields have mixed signs); a `minutes` field that is absent
(`undefined`, fewer than two `:`-separated parts) counts as zero. -/
def timeStringToPlainDateTime (startOfDay : Int) (time : List Char) :
    Except String Int :=
  let parts := splitChars ':' time
  let hours : Option Int := parseIntJS (parts.headD [])
  let minutes : Option (Option Int) := (parts[1]?).map parseIntJS
  match hours with
  | none => Except.error "RangeError: NaN is not a valid duration field"
  | some h =>
    match minutes with
    | none => Except.ok (startOfDay + 60 * h)
    | some none => Except.error "RangeError: NaN is not a valid duration field"
    | some (some mv) =>
      if (0 < h ∧ mv < 0) ∨ (h < 0 ∧ 0 < mv) then
        Except.error "RangeError: mixed-sign duration fields"
      else Except.ok (startOfDay + 60 * h + mv)

/-- The `GhBodyInfo` record of the source, partial as `extractBodyInfo`
returns it (`extraPeople` and `notes` are always set). -/
structure GhBodyInfo where
  calendarUrl : Option String
  day : Option Day
  startOfDay : Option Int
  start : Option Int
  «end» : Option Int
  extraPeople : List String
  notes : String
deriving DecidableEq, Repr

/-- `extractBodyInfo` from the source.  The four `shift()`s are modelled
by indexing lines 0-3; a thrown `RangeError` from
`timeStringToPlainDateTime` propagates out as `Except.error`. -/
def extractBodyInfo (body : String) : Except String GhBodyInfo :=
  let bodyLines := (splitNewlines body.toList).map String.mk
  let calendarUrl := bodyLines[0]?
  let rawDay := (bodyLines[1]?).map lowerString
  let day : Option Day :=
    match rawDay with
    | some s => dayFromString s
    | none => none
  let startOfDay := day.map startOfDayFrom
  let time := bodyLines[2]?
  let startAndEnd : Except String (Option (List Int)) :=
    match startOfDay with
    | some sod =>
      match time with
      | none => Except.ok none
      | some t =>
        ((splitDash t.toList).mapM
          (fun tstr => timeStringToPlainDateTime sod tstr)).map
          (fun l => some l)
    | none => Except.ok (some [])
  match startAndEnd with
  | Except.error e => Except.error e
  | Except.ok sae =>
    let start := sae.bind (fun l => l[0]?)
    let endTime := sae.bind (fun l => l[1]?)
    let extraPeopleOrBlank := bodyLines[3]?
    let haveExtraLine : Bool :=
      match extraPeopleOrBlank with
      | some s => decide (s.length > 0)
      | none => false
    let extraPeople : List String :=
      if haveExtraLine then
        match extraPeopleOrBlank with
        | some s => (splitWs (stripCommasAts s.toList)).map String.mk
        | none => []
      else []
    let notes := String.mk (joinChars '\n'
      ((bodyLines.drop (if haveExtraLine then 5 else 4)).map String.toList))
    Except.ok
      { calendarUrl := calendarUrl
        day := day
        startOfDay := startOfDay
        start := start
        «end» := endTime
        extraPeople := extraPeople
        notes := notes }

/-- An issue body whose day line is valid but whose time line is not a
time range. -/
def malformedTimeBody : String :=
  "https://www.w3.org/events/meetings/x\nmonday\nTBD"

/-- Claim C7: the parser is NOT total — a present but malformed time line
under a valid day makes `parseInt` yield `NaN`, and
`Temporal.Duration.from` then throws a `RangeError` that escapes
`extractBodyInfo`; an unrecognised day tag or a missing time line, by
contrast, degrade gracefully to `undefined` fields. -/
theorem claim_C7 :
    extractBodyInfo malformedTimeBody =
      Except.error "RangeError: NaN is not a valid duration field" ∧
    extractBodyInfo "https://www.w3.org/events/meetings/x\nSomeday\nTBD" =
      Except.ok
        { calendarUrl := some "https://www.w3.org/events/meetings/x"
          day := none
          startOfDay := none
          start := none
          «end» := none
          extraPeople := []
          notes := "" } ∧
    extractBodyInfo "https://www.w3.org/events/meetings/x\nmonday" =
      Except.ok
        { calendarUrl := some "https://www.w3.org/events/meetings/x"
          day := some Day.monday
          startOfDay := some 0
          start := none
          «end» := none
          extraPeople := []
          notes := "" } := by
  refine ⟨?_, ?_, ?_⟩ <;> rfl

end Tsh
